import Mathlib

/-!
Verification of the meile-outlet-checker repository against its specification.

The embedding models:
  * the fuzzy matcher (`find_near_matches`, external `fuzzysearch` dependency,
    modelled from the spec) over `List Char`;
  * whitespace normalization (`"".join(text.split())` in the source);
  * `replace_if_different`, `download_pdf` and the retry loop of
    `parse_and_notify_pdf` over an explicit file-content state
    (`Option (List Nat)` models "absent file / file with those bytes");
  * the notification formatting (rich-console prints into a buffer, modelled
    as a list of printed lines) and the send decision.
-/

/-- One fuzzy-match occurrence: start position in the haystack, the matched
substring, and its edit distance from the pattern. -/
structure MatchRecord where
  start : Nat
  matched : List Char
  dist : Nat
deriving DecidableEq, Repr

/-- Error raised by the fuzzy matcher on an empty search pattern. -/
inductive FuzzyError where
  | invalidQuery
deriving DecidableEq, Repr

/-- Levenshtein edit distance (insertions, deletions, substitutions). -/
def levDist : List Char → List Char → Nat
  | [], ys => ys.length
  | xs, [] => xs.length
  | x :: xs, y :: ys =>
    if x = y then levDist xs ys
    else 1 + min (levDist xs (y :: ys)) (min (levDist (x :: xs) ys) (levDist xs ys))
termination_by xs ys => xs.length + ys.length

theorem levDist_eq_zero_iff (p q : List Char) : levDist p q = 0 ↔ p = q := by
  induction p generalizing q with
  | nil =>
    cases q with
    | nil => simp [levDist]
    | cons y ys => simp [levDist]
  | cons x xs ih =>
    cases q with
    | nil => simp [levDist]
    | cons y ys =>
      by_cases hxy : x = y
      · subst hxy
        simp [levDist, ih]
      · simp [levDist, hxy]

/-- Modelled from the spec: the FuzzyMatcher implementation (the external
`fuzzysearch` library's `find_near_matches`) is not part of the repository
sources; following §4.1, it reports every substring of the haystack whose
edit distance from the pattern is at most `max_l_dist`, ordered by position
of occurrence (left to right), with no deduplication of overlapping matches,
and fails with `InvalidQuery` on an empty pattern. -/
def find_near_matches (pattern haystack : List Char) (max_l_dist : Nat) :
    Except FuzzyError (List MatchRecord) :=
  if pattern = [] then .error .invalidQuery
  else .ok <|
    (List.range (haystack.length + 1)).flatMap fun i =>
      (List.range (haystack.length + 1 - i)).filterMap fun len =>
        let sub := (haystack.drop i).take len
        let d := levDist pattern sub
        if d ≤ max_l_dist then some ⟨i, sub, d⟩ else none

/-- Spec-side reference: the start positions of the exact occurrences of `p`
in `h`, in increasing order. -/
def exact_occurrences (p h : List Char) : List Nat :=
  (List.range (h.length + 1)).filter fun i => decide ((h.drop i).take p.length = p)

/-- Whitespace characters recognised by Python's `str.split()` (ASCII range). -/
def isPySpace (c : Char) : Bool :=
  c = ' ' || c = '\t' || c = '\n' || c = '\r' || c = '\x0b' || c = '\x0c'

/-- The source's normalization idiom: join of `text.split()` with the empty
separator, i.e. remove every whitespace character, keeping the remaining
characters in order. -/
def normalizeText (s : List Char) : List Char := s.filter fun c => !(isPySpace c)

/-- One entry of the configured input: a product code and its annotation. -/
structure CodeInfo where
  code : List Char
  extra : List Char
deriving DecidableEq, Repr

/-- The per-code page loop of `parse_and_notify_pdf`: an accumulator starts
empty and is extended with the fuzzy matches of the whitespace-stripped code
against each page's whitespace-stripped text, page by page. -/
def scanCode (code_info : CodeInfo) : List (List Char) → List MatchRecord →
    Except FuzzyError (List MatchRecord)
  | [], acc => .ok acc
  | page :: rest, acc =>
    match find_near_matches (normalizeText code_info.code) (normalizeText page) 0 with
    | .error e => .error e
    | .ok ms => scanCode code_info rest (acc ++ ms)

/-- The outer loop of `parse_and_notify_pdf` over the configured codes, in
configuration order. -/
def scanCodes : List CodeInfo → List (List Char) →
    Except FuzzyError (List (CodeInfo × List MatchRecord))
  | [], _ => .ok []
  | ci :: rest, pages =>
    match scanCode ci pages [] with
    | .error e => .error e
    | .ok ms =>
      match scanCodes rest pages with
      | .error e => .error e
      | .ok rs => .ok ((ci, ms) :: rs)

/-- One line printed to the notification buffer. Each constructor stands for
one console.print call of the source: the per-code count line, the per-code
annotation line, the per-match line with the matched text and its distance,
and the final source-URL line. -/
inductive Line where
  | found (count : Nat) (code : List Char)
  | extra (note : List Char)
  | matchInfo (matched : List Char) (dist : Nat)
  | urlLine (url : List Char)
deriving DecidableEq, Repr

/-- The lines printed for one code: nothing when it has no matches, otherwise
the count line, the annotation line, and one line per match in order. -/
def codeLines (code_info : CodeInfo) (ms : List MatchRecord) : List Line :=
  if ms.isEmpty then []
  else Line.found ms.length code_info.code :: Line.extra code_info.extra
    :: (ms.map fun m => Line.matchInfo m.matched m.dist)

/-- The notification body: `none` when no code matched (the source only
sends when `found_matches` is true), otherwise every code's lines in code
order followed by the source URL. -/
def formatReport (results : List (CodeInfo × List MatchRecord)) (url : List Char) :
    Option (List Line) :=
  if results.any fun r => !r.2.isEmpty then
    some ((results.flatMap fun r => codeLines r.1 r.2) ++ [Line.urlLine url])
  else none

/-- Python truthiness of an optional string: `None` and `""` are falsy. -/
def truthyStr : Option String → Bool
  | none => false
  | some s => !s.isEmpty

/-- Python truthiness of an optional list: `None` and the empty list are falsy. -/
def truthyList : Option (List String) → Bool
  | none => false
  | some l => !l.isEmpty

/-- The send decision at the end of `parse_and_notify_pdf`: first
`if number and not recipients` rebinds recipients to the one-element list
holding the number, then `if number and recipients` performs the POST.
Returns the (number, recipients) pair actually posted, or `none` when no
POST happens. -/
def notifyDecision (number : Option String) (recipients : Option (List String)) :
    Option (String × List String) :=
  let recipients' :=
    if truthyStr number && !truthyList recipients then some [number.getD ""]
    else recipients
  if truthyStr number && truthyList recipients' then
    some (number.getD "", recipients'.getD [])
  else none

/-- Which branch of `replace_if_different` ran. -/
inductive ReplaceOutcome where
  | missingCandidate
  | identical
  | replaced
deriving DecidableEq, Repr

/-- The boolean `replace_if_different` returns for each branch: `True` only
when the file was moved into place. -/
def ReplaceOutcome.returnValue : ReplaceOutcome → Bool
  | .replaced => true
  | _ => false

/-- File contents are modelled as `Option (List Nat)`: `none` is an absent
file, `some bs` a file holding bytes `bs`. The function takes the contents at
`new_file` and `old_file` and returns the branch taken together with the
contents of both paths after the call; `shutil.move` removes the source file
and leaves its bytes at the destination. -/
def replace_if_different (new_file old_file : Option (List Nat)) :
    ReplaceOutcome × Option (List Nat) × Option (List Nat) :=
  match new_file with
  | none => (.missingCandidate, none, old_file)
  | some newBytes =>
    match old_file with
    | some oldBytes =>
      if newBytes = oldBytes then (.identical, some newBytes, some oldBytes)
      else (.replaced, none, some newBytes)
    | none => (.replaced, none, some newBytes)

/-- Result of one `requests.get(url, timeout=10)` call. -/
inductive FetchResult where
  | ok (content : List Nat)
  | httpError (status : Nat)
  | timeout
deriving DecidableEq, Repr

/-- Exceptions raised by the transport: `raise_for_status` on a non-success
status, or the request timing out. -/
inductive TransportError where
  | httpStatus (status : Nat)
  | timedOut
deriving DecidableEq, Repr

/-- One `download_pdf` attempt: the GET either raises (timeout, or
`raise_for_status` on a non-success status) before anything is written, or
yields content that is written to a fresh temporary file and promoted with
`replace_if_different` against the target. Returns the raised error or the
boolean handed back to the retry loop, together with the target file's
contents after the call. -/
def download_pdf (resp : FetchResult) (target : Option (List Nat)) :
    Except TransportError Bool × Option (List Nat) :=
  match resp with
  | .httpError s => (.error (.httpStatus s), target)
  | .timeout => (.error .timedOut, target)
  | .ok content =>
    let r := replace_if_different (some content) target
    (.ok r.1.returnValue, r.2.2)

/-- How the fetch-retry loop ended. -/
inductive LoopResult where
  | succeeded (target : Option (List Nat))
  | exhausted
deriving DecidableEq, Repr

/-- The while-loop of `parse_and_notify_pdf`: the counter is incremented at
the top of each iteration and once it exceeds `maxAttempts` (90 in the
source) the function returns, skipping the scan; otherwise `download_pdf`
runs and the loop repeats while nothing was replaced. Returns how the loop
ended paired with the number of download attempts performed; a transport
error propagates out. -/
def fetchLoop (fetch : Nat → FetchResult) (maxAttempts : Nat) (counter : Nat)
    (target : Option (List Nat)) :
    Except TransportError (LoopResult × Nat) :=
  if h : maxAttempts < counter + 1 then .ok (.exhausted, counter)
  else
    match download_pdf (fetch (counter + 1)) target with
    | (.error e, _) => .error e
    | (.ok replaced, target') =>
      if replaced then .ok (.succeeded target', counter + 1)
      else fetchLoop fetch maxAttempts (counter + 1) target'
termination_by maxAttempts + 1 - counter
decreasing_by omega

/-- Errors that abort a `parse_and_notify_pdf` cycle. -/
inductive RunError where
  | transport (e : TransportError)
  | query (e : FuzzyError)
deriving DecidableEq, Repr

/-- What a completed scan produced: the per-code results, the formatted
notification body (if any), and the POST actually performed (if any). -/
structure ScanOutcome where
  results : List (CodeInfo × List MatchRecord)
  message : Option (List Line)
  posted : Option (String × List String)
deriving DecidableEq, Repr

/-- Result of one `parse_and_notify_pdf` cycle: how many download attempts
ran, and the scan outcome — `none` when the cycle bailed out with no fresh
document and never scanned. -/
structure RunResult where
  attempts : Nat
  scanned : Option ScanOutcome
deriving DecidableEq, Repr

/-- `parse_and_notify_pdf`: run the retry loop with the source's attempt
budget of 90; on exhaustion return with no scan performed; on success extract
the pages of the downloaded document, scan every configured code over every
page, format the report and decide the notification POST. -/
def parse_and_notify_pdf (number : Option String) (recipients : Option (List String))
    (url : List Char) (fetch : Nat → FetchResult)
    (extract : List Nat → List (List Char)) (input_data : List CodeInfo)
    (target : Option (List Nat)) : Except RunError RunResult :=
  match fetchLoop fetch 90 0 target with
  | .error e => .error (.transport e)
  | .ok (.exhausted, attempts) => .ok ⟨attempts, none⟩
  | .ok (.succeeded target', attempts) =>
    let pages := match target' with
      | some bytes => extract bytes
      | none => []
    match scanCodes input_data pages with
    | .error e => .error (.query e)
    | .ok results =>
      let message := formatReport results url
      let posted := match message with
        | none => none
        | some _ => notifyDecision number recipients
      .ok ⟨attempts, some ⟨results, message, posted⟩⟩

/-- Observable contents of the destination path during `shutil.move(src, dst)`,
per the Python standard library semantics the source relies on: when source
and destination are on the same filesystem, `os.rename` replaces the
destination in one atomic step; otherwise the file is copied to the
destination — written incrementally, modelled as one observable state per
byte prefix — and the source is removed afterwards. -/
def shutilMoveStates (sameFilesystem : Bool) (old : Option (List Nat))
    (newBytes : List Nat) : List (Option (List Nat)) :=
  if sameFilesystem then [old, some newBytes]
  else old :: (List.range (newBytes.length + 1)).map fun j => some (newBytes.take j)

theorem filterMap_ite_single {β : Type} (l0 : Nat) (r : β) (N : Nat) :
    (List.range N).filterMap (fun len => if len = l0 then some r else none)
      = if l0 < N then [r] else [] := by
  induction N with
  | zero => simp
  | succ n ih =>
    rw [List.range_succ, List.filterMap_append, ih]
    by_cases h1 : l0 < n
    · have h2 : ¬ (n = l0) := by omega
      have h3 : l0 < n + 1 := by omega
      simp [h1, h2, h3]
    · by_cases h2 : n = l0
      · subst h2
        simp [h1]
      · have h3 : ¬ (l0 < n + 1) := by omega
        simp [h1, h2, h3]

theorem flatMap_ite {β : Type} (l : List Nat) (q : Nat → Bool) (g : Nat → β) :
    (l.flatMap fun i => if q i then [g i] else []) = (l.filter q).map g := by
  induction l with
  | nil => rfl
  | cons a t ih => by_cases hq : q a <;> simp [hq, ih]

theorem inner_matches_eq (p h : List Char) (i : Nat) (hi : i ≤ h.length) :
    ((List.range (h.length + 1 - i)).filterMap fun len =>
      if levDist p ((h.drop i).take len) ≤ 0 then
        some (⟨i, (h.drop i).take len, levDist p ((h.drop i).take len)⟩ : MatchRecord)
      else none)
    = if decide ((h.drop i).take p.length = p) then [(⟨i, p, 0⟩ : MatchRecord)] else [] := by
  have hdl : (h.drop i).length = h.length - i := List.length_drop i h
  by_cases hocc : (h.drop i).take p.length = p
  · have hlenp : p.length ⊓ (h.drop i).length = p.length := by
      have := congrArg List.length hocc
      rwa [List.length_take] at this
    have hple : p.length ≤ (h.drop i).length := min_eq_left_iff.mp hlenp
    have hcongr : ∀ len ∈ List.range (h.length + 1 - i),
        (if levDist p ((h.drop i).take len) ≤ 0 then
          some (⟨i, (h.drop i).take len, levDist p ((h.drop i).take len)⟩ : MatchRecord)
        else none)
        = if len = p.length then some (⟨i, p, 0⟩ : MatchRecord) else none := by
      intro len hlen
      rw [List.mem_range] at hlen
      have hlen' : len ≤ (h.drop i).length := by omega
      by_cases he : len = p.length
      · subst he
        rw [hocc]
        have h0 : levDist p p = 0 := (levDist_eq_zero_iff p p).mpr rfl
        rw [h0]
        simp
      · have hne : levDist p ((h.drop i).take len) ≠ 0 := by
          intro heq
          rw [levDist_eq_zero_iff] at heq
          have hl := congrArg List.length heq
          rw [List.length_take] at hl
          have : len ⊓ (h.drop i).length = len := min_eq_left hlen'
          omega
        simp [Nat.le_zero, hne, he]
    rw [List.filterMap_congr hcongr, filterMap_ite_single]
    rw [if_pos (decide_eq_true hocc), if_pos (by omega)]
  · rw [if_neg (by simpa using hocc)]
    apply List.filterMap_eq_nil_iff.mpr
    intro len hlen
    rw [List.mem_range] at hlen
    have hlen' : len ≤ (h.drop i).length := by omega
    have hne : levDist p ((h.drop i).take len) ≠ 0 := by
      intro heq
      rw [levDist_eq_zero_iff] at heq
      have hl := congrArg List.length heq
      rw [List.length_take] at hl
      have hmin : len ⊓ (h.drop i).length = len := min_eq_left hlen'
      have : len = p.length := by omega
      subst this
      exact hocc heq.symm
    simp [Nat.le_zero, hne]

/-- At `max_l_dist = 0`, the fuzzy search returns exactly one record per exact
occurrence of the pattern, in position order. -/
theorem find_near_matches_zero (p h : List Char) (hp : p ≠ []) :
    find_near_matches p h 0 =
      .ok ((exact_occurrences p h).map fun i => (⟨i, p, 0⟩ : MatchRecord)) := by
  have hbody : find_near_matches p h 0 =
      .ok ((List.range (h.length + 1)).flatMap fun i =>
        (List.range (h.length + 1 - i)).filterMap fun len =>
          if levDist p ((h.drop i).take len) ≤ 0 then
            some (⟨i, (h.drop i).take len, levDist p ((h.drop i).take len)⟩ : MatchRecord)
          else none) := by
    rw [find_near_matches, if_neg hp]
  rw [hbody]
  congr 1
  have h1 : ∀ i ∈ List.range (h.length + 1),
      ((List.range (h.length + 1 - i)).filterMap fun len =>
        if levDist p ((h.drop i).take len) ≤ 0 then
          some (⟨i, (h.drop i).take len, levDist p ((h.drop i).take len)⟩ : MatchRecord)
        else none)
      = if decide ((h.drop i).take p.length = p) then [(⟨i, p, 0⟩ : MatchRecord)] else [] := by
    intro i hi
    rw [List.mem_range] at hi
    exact inner_matches_eq p h i (by omega)
  rw [List.flatMap_congr h1, flatMap_ite]
  rfl

/-- Per-code scan over all pages: with a non-empty normalized code the loop
succeeds and returns the accumulator followed by the exact matches of each
page in page order. -/
theorem scanCode_ok (ci : CodeInfo) (hp : normalizeText ci.code ≠ []) :
    ∀ (pages : List (List Char)) (acc : List MatchRecord),
      scanCode ci pages acc = .ok (acc ++ pages.flatMap fun pg =>
        (exact_occurrences (normalizeText ci.code) (normalizeText pg)).map
          fun i => (⟨i, normalizeText ci.code, 0⟩ : MatchRecord)) := by
  intro pages
  induction pages with
  | nil =>
    intro acc
    simp [scanCode]
  | cons pg rest ih =>
    intro acc
    simp only [scanCode, find_near_matches_zero _ _ hp]
    rw [ih]
    rw [List.flatMap_cons, List.append_assoc]

/-- Whole-document scan: one result per configured code, in configuration
order, each concatenating the page matches in page order. -/
theorem scanCodes_ok (codes : List CodeInfo) (pages : List (List Char))
    (hall : ∀ ci ∈ codes, normalizeText ci.code ≠ []) :
    scanCodes codes pages = .ok (codes.map fun ci =>
      (ci, pages.flatMap fun pg =>
        (exact_occurrences (normalizeText ci.code) (normalizeText pg)).map
          fun i => (⟨i, normalizeText ci.code, 0⟩ : MatchRecord))) := by
  induction codes with
  | nil => simp [scanCodes]
  | cons ci rest ih =>
    have h1 := scanCode_ok ci (hall ci (List.mem_cons_self ci rest)) pages []
    have h2 := ih fun c hc => hall c (List.mem_cons_of_mem ci hc)
    simp [scanCodes, h1, h2]

/-- C1: with `max_l_dist = 0` the fuzzy search returns one MatchRecord per
exact occurrence of the pattern in the haystack — all of them, overlapping
ones included, in left-to-right position order — and every returned record
has matched text equal to the pattern and distance 0. -/
theorem c1_fuzzy_zero_is_exact_search (p h : List Char) (hp : p ≠ []) :
    find_near_matches p h 0 =
      .ok ((exact_occurrences p h).map fun i => (⟨i, p, 0⟩ : MatchRecord)) ∧
    (∀ i : Nat, i ∈ exact_occurrences p h ↔
      i + p.length ≤ h.length ∧ (h.drop i).take p.length = p) ∧
    (exact_occurrences p h).Pairwise (· < ·) := by
  refine ⟨find_near_matches_zero p h hp, ?_, ?_⟩
  · intro i
    rw [exact_occurrences, List.mem_filter, List.mem_range]
    constructor
    · rintro ⟨hi, hq⟩
      have hocc := of_decide_eq_true hq
      have hl := congrArg List.length hocc
      rw [List.length_take, List.length_drop] at hl
      have := min_eq_left_iff.mp hl
      exact ⟨by omega, hocc⟩
    · rintro ⟨hlen, hocc⟩
      exact ⟨by omega, decide_eq_true hocc⟩
  · exact List.Pairwise.sublist (List.filter_sublist _) (List.pairwise_lt_range _)

theorem c1_witness :
    "ABC123".toList ≠ [] ∧
    find_near_matches "ABC123".toList "xxABC123yyABC123".toList 0 =
      .ok ((exact_occurrences "ABC123".toList "xxABC123yyABC123".toList).map
        fun i => (⟨i, "ABC123".toList, 0⟩ : MatchRecord)) ∧
    exact_occurrences "ABC123".toList "xxABC123yyABC123".toList = [2, 10] :=
  ⟨by decide,
   (c1_fuzzy_zero_is_exact_search "ABC123".toList "xxABC123yyABC123".toList (by decide)).1,
   by decide⟩

/-- C6: the scan produces one result per configured code in configuration
order; for each code the pages are processed in page order, each page's text
is normalized before matching, the search runs at distance 0, and the
per-page matches are concatenated preserving page order. -/
theorem c6_scan_aggregation_order (codes : List CodeInfo) (pages : List (List Char))
    (hall : ∀ ci ∈ codes, normalizeText ci.code ≠ []) :
    scanCodes codes pages = .ok (codes.map fun ci =>
      (ci, pages.flatMap fun pg =>
        (exact_occurrences (normalizeText ci.code) (normalizeText pg)).map
          fun i => (⟨i, normalizeText ci.code, 0⟩ : MatchRecord))) :=
  scanCodes_ok codes pages hall

theorem c6_witness :
    (∀ ci ∈ [(⟨['A', '1'], []⟩ : CodeInfo), ⟨['Z', 'Z', 'Z'], []⟩],
      normalizeText ci.code ≠ []) ∧
    scanCodes [⟨['A', '1'], []⟩, ⟨['Z', 'Z', 'Z'], []⟩]
        [['x', 'A', '1', 'y'],
         ['n', 'o', 'A', '1', 'h', 'e', 'r', 'e', ' ', 'Z', 'Z', 'Z']]
      = .ok [(⟨['A', '1'], []⟩, [⟨1, ['A', '1'], 0⟩, ⟨2, ['A', '1'], 0⟩]),
             (⟨['Z', 'Z', 'Z'], []⟩, [⟨8, ['Z', 'Z', 'Z'], 0⟩])] := by
  refine ⟨by decide, ?_⟩
  rw [c6_scan_aggregation_order _ _ (by decide)]
  rfl

/-- C8: the fuzzy search on an empty pattern fails with InvalidQuery instead
of returning a match list, an empty-after-normalization code aborts a scan
with that error, and a run whose configured codes all normalize to non-empty
patterns never sees the error. -/
theorem c8_empty_pattern_invalid_query :
    (∀ (h : List Char) (k : Nat), find_near_matches [] h k = .error .invalidQuery) ∧
    (∀ (ci : CodeInfo) (page : List Char) (pages : List (List Char))
      (acc : List MatchRecord), normalizeText ci.code = [] →
      scanCode ci (page :: pages) acc = .error .invalidQuery) ∧
    (∀ (codes : List CodeInfo) (pages : List (List Char)),
      (∀ ci ∈ codes, normalizeText ci.code ≠ []) →
      ∃ rs, scanCodes codes pages = .ok rs) := by
  refine ⟨?_, ?_, ?_⟩
  · intro h k
    rw [find_near_matches, if_pos rfl]
  · intro ci page pages acc hempty
    simp [scanCode, hempty, find_near_matches]
  · intro codes pages hall
    exact ⟨_, scanCodes_ok codes pages hall⟩

theorem c8_witness :
    find_near_matches [] ['x'] 0 = .error .invalidQuery ∧
    scanCode ⟨[' '], ['e']⟩ [['x']] [] = .error .invalidQuery ∧
    scanCodes [⟨['a'], []⟩] [['a']] ≠ .error .invalidQuery := by
  refine ⟨c8_empty_pattern_invalid_query.1 ['x'] 0,
    c8_empty_pattern_invalid_query.2.1 ⟨[' '], ['e']⟩ ['x'] [] [] (by decide), ?_⟩
  obtain ⟨rs, hrs⟩ := c8_empty_pattern_invalid_query.2.2 [⟨['a'], []⟩] [['a']] (by decide)
  rw [hrs]
  simp

/-- C2: with an existing candidate file — absent target: returns True and
the target gets exactly the candidate's bytes; byte-identical target:
returns False and the target is unchanged; different target: returns True
and the target gets the candidate's prior bytes. -/
theorem c2_replace_if_different_cases (b : List Nat) (tgt : Option (List Nat)) :
    (tgt = none →
      replace_if_different (some b) tgt = (.replaced, none, some b)) ∧
    (tgt = some b →
      replace_if_different (some b) tgt = (.identical, some b, some b)) ∧
    (∀ c, tgt = some c → c ≠ b →
      replace_if_different (some b) tgt = (.replaced, none, some b)) ∧
    ReplaceOutcome.returnValue .replaced = true ∧
    ReplaceOutcome.returnValue .identical = false := by
  refine ⟨?_, ?_, ?_, rfl, rfl⟩
  · rintro rfl
    rfl
  · rintro rfl
    simp [replace_if_different]
  · rintro c rfl hne
    have hne' : b ≠ c := fun hh => hne hh.symm
    simp [replace_if_different, hne']

theorem c2_witness :
    replace_if_different (some [1]) none = (.replaced, none, some [1]) ∧
    replace_if_different (some [1]) (some [1]) = (.identical, some [1], some [1]) ∧
    replace_if_different (some [1]) (some [2]) = (.replaced, none, some [1]) :=
  ⟨(c2_replace_if_different_cases [1] none).1 rfl,
   (c2_replace_if_different_cases [1] (some [1])).2.1 rfl,
   (c2_replace_if_different_cases [1] (some [2])).2.2.1 [2] rfl (by decide)⟩

/-- C5: when the candidate file is absent, `replace_if_different` takes its
missing-candidate branch (the logged precondition failure), returns False —
the value the retry loop treats as a failed attempt — and the target path's
content is untouched. -/
theorem c5_missing_candidate (tgt : Option (List Nat)) :
    replace_if_different none tgt = (.missingCandidate, none, tgt) ∧
    ReplaceOutcome.returnValue .missingCandidate = false :=
  ⟨rfl, rfl⟩

/-- C9: a non-success HTTP status or a timeout inside `download_pdf` raises a
transport error for that attempt and leaves the cached document at the
target path byte-for-byte unchanged — nothing is written or promoted. -/
theorem c9_failed_fetch_leaves_cache (tgt : Option (List Nat)) (s : Nat) :
    download_pdf (.httpError s) tgt = (.error (.httpStatus s), tgt) ∧
    download_pdf .timeout tgt = (.error .timedOut, tgt) :=
  ⟨rfl, rfl⟩

/-- When every fetch yields exactly the cached bytes, every attempt leaves
the target unchanged and the loop runs its budget down to exhaustion. -/
theorem fetchLoop_identical (c : List Nat) (maxA : Nat) :
    ∀ (n counter : Nat), counter ≤ maxA → maxA - counter = n →
      fetchLoop (fun _ => .ok c) maxA counter (some c) = .ok (.exhausted, maxA) := by
  intro n
  induction n with
  | zero =>
    intro counter hle hz
    have hc : counter = maxA := by omega
    subst hc
    rw [fetchLoop, dif_pos (by omega)]
  | succ k ih =>
    intro counter hle hk
    rw [fetchLoop, dif_neg (by omega)]
    have hdl : download_pdf (.ok c) (some c) = (.ok false, some c) := by
      simp [download_pdf, replace_if_different, ReplaceOutcome.returnValue]
    rw [hdl]
    exact ih (counter + 1) (by omega) (by omega)

/-- C3: when every fetch returns bytes identical to the already-cached
document, the retry loop of `parse_and_notify_pdf` performs exactly 90
download attempts (the budget) and the cycle then returns with no scan
performed and no error raised. -/
theorem c3_exhausted_after_90_attempts (c : List Nat) (number : Option String)
    (recipients : Option (List String)) (url : List Char)
    (extract : List Nat → List (List Char)) (input_data : List CodeInfo) :
    fetchLoop (fun _ => .ok c) 90 0 (some c) = .ok (.exhausted, 90) ∧
    parse_and_notify_pdf number recipients url (fun _ => .ok c) extract input_data
      (some c) = .ok ⟨90, none⟩ := by
  have hloop := fetchLoop_identical c 90 90 0 (by omega) (by omega)
  exact ⟨hloop, by simp [parse_and_notify_pdf, hloop]⟩

/-- C7: the formatter produces no message exactly when every code's match
list is empty; otherwise the message ends with the source-URL line and, for
every code with at least one match, contains that code's match-count line,
its annotation line, and one line per match carrying the literal matched
text and its distance. -/
theorem c7_formatter (results : List (CodeInfo × List MatchRecord)) (url : List Char) :
    (formatReport results url = none ↔ ∀ r ∈ results, r.2 = []) ∧
    (∀ msg, formatReport results url = some msg →
      msg.getLast? = some (Line.urlLine url) ∧
      ∀ ci ms, (ci, ms) ∈ results → ms ≠ [] →
        Line.found ms.length ci.code ∈ msg ∧
        Line.extra ci.extra ∈ msg ∧
        ∀ m ∈ ms, Line.matchInfo m.matched m.dist ∈ msg) := by
  constructor
  · rw [formatReport]
    by_cases hany : results.any fun r => !r.2.isEmpty
    · rw [if_pos hany]
      rw [List.any_eq_true] at hany
      obtain ⟨r, hr, hb⟩ := hany
      simp only [Bool.not_eq_true'] at hb
      constructor
      · intro hcontra
        exact absurd hcontra (by simp)
      · intro hall
        have := hall r hr
        rw [this] at hb
        simp at hb
    · rw [if_neg hany]
      rw [List.any_eq_true] at hany
      push_neg at hany
      constructor
      · intro _ r hr
        have := hany r hr
        simp only [Bool.not_eq_true'] at this
        simpa [List.isEmpty_iff] using this
      · intro _
        rfl
  · intro msg hmsg
    rw [formatReport] at hmsg
    by_cases hany : results.any fun r => !r.2.isEmpty
    · rw [if_pos hany] at hmsg
      have hmsg' := (Option.some.injEq _ _).mp hmsg
      subst hmsg'
      refine ⟨List.getLast?_concat _, ?_⟩
      intro ci ms hmem hne
      have hin : ∀ x ∈ codeLines ci ms,
          x ∈ (results.flatMap fun r => codeLines r.1 r.2) ++ [Line.urlLine url] := by
        intro x hx
        exact List.mem_append.mpr (Or.inl (List.mem_flatMap.mpr ⟨(ci, ms), hmem, hx⟩))
      have hemp : ms.isEmpty = false := by
        cases ms with
        | nil => exact absurd rfl hne
        | cons m ms' => rfl
      refine ⟨?_, ?_, ?_⟩
      · refine hin _ ?_
        rw [codeLines, if_neg (by simp [hemp])]
        exact List.mem_cons_self _ _
      · refine hin _ ?_
        rw [codeLines, if_neg (by simp [hemp])]
        exact List.mem_cons_of_mem _ (List.mem_cons_self _ _)
      · intro m hm
        refine hin _ ?_
        rw [codeLines, if_neg (by simp [hemp])]
        exact List.mem_cons_of_mem _ (List.mem_cons_of_mem _
          (List.mem_map_of_mem _ hm))
    · rw [if_neg hany] at hmsg
      exact absurd hmsg (by simp)

theorem c7_witness :
    formatReport [(⟨['A'], ['n']⟩, [⟨0, ['A'], 0⟩])] ['u']
      = some [Line.found 1 ['A'], Line.extra ['n'],
          Line.matchInfo ['A'] 0, Line.urlLine ['u']] ∧
    Line.found 1 ['A'] ∈ [Line.found 1 ['A'], Line.extra ['n'],
      Line.matchInfo ['A'] 0, Line.urlLine ['u']] := by
  have h := (c7_formatter [(⟨['A'], ['n']⟩, [⟨0, ['A'], 0⟩])] ['u']).2
    [Line.found 1 ['A'], Line.extra ['n'], Line.matchInfo ['A'] 0, Line.urlLine ['u']]
    (by rfl)
  exact ⟨rfl, (h.2 ⟨['A'], ['n']⟩ [⟨0, ['A'], 0⟩] (by simp) (by simp)).1⟩

/-- C10 counterexample: the sender number is provided (it is `some ""`) and
matches were found, yet no POST happens — Python truthiness treats the
provided empty string like an absent number, falsifying the claimed
"if and only if a sender number was provided". -/
theorem c10_counterexample_empty_number :
    (some "" : Option String).isSome = true ∧ notifyDecision (some "") none = none := by
  exact ⟨rfl, by decide⟩

/-- C10 amended: the POST is performed iff the provided sender number is
non-empty (Python truthiness); when the number is non-empty and the
recipients list is absent, the message is sent with recipients equal to the
one-element list containing the number itself. -/
theorem c10_notify_decision (number : Option String) (recipients : Option (List String)) :
    ((notifyDecision number recipients).isSome = true ↔ truthyStr number = true) ∧
    (∀ s, number = some s → s ≠ "" → recipients = none →
      notifyDecision number recipients = some (s, [s])) := by
  constructor
  · cases number with
    | none => simp [notifyDecision, truthyStr]
    | some s =>
      by_cases hs : s.isEmpty
      · simp [notifyDecision, truthyStr, hs]
      · simp only [Bool.not_eq_true] at hs
        cases recipients with
        | none => simp [notifyDecision, truthyStr, truthyList, hs]
        | some l =>
          by_cases hl : l.isEmpty
          · simp [notifyDecision, truthyStr, truthyList, hs, hl]
          · simp only [Bool.not_eq_true] at hl
            simp [notifyDecision, truthyStr, truthyList, hs, hl]
  · rintro s rfl hs rfl
    have hs' : s.isEmpty = false := by
      cases hh : s.isEmpty
      · rfl
      · exact absurd ((String.isEmpty_iff s).mp hh) hs
    simp [notifyDecision, truthyStr, truthyList, hs']

theorem c10_witness : notifyDecision (some "n") none = some ("n", ["n"]) :=
  (c10_notify_decision (some "n") none).2 "n" rfl (by decide) rfl

/-- C4: the promotion performed by `shutil.move` is a single atomic rename
only when source and destination are on the same filesystem; the source
writes the candidate to a `TemporaryDirectory`, and when that directory and
the cache directory are on different filesystems `shutil.move` falls back to
copy-then-delete, during which the target is observable holding a strict
prefix of the new document — neither absent, nor the old document, nor the
new one. -/
theorem c4_shutil_move_cross_fs_partial_state :
    some [2] ∈ shutilMoveStates false (some [1]) [2, 3] ∧
    ¬ (some [2] = (none : Option (List Nat)) ∨ some [2] = some [1] ∨
        some [2] = some [2, 3]) ∧
    shutilMoveStates true (some [1]) [2, 3] = [some [1], some [2, 3]] := by
  exact ⟨by decide, by decide, by decide⟩
